import Mathlib

/-!
Shallow embedding of `minesweeper.py` (classes `Sentence` and `MinesweeperAI`).

Cells are coordinate pairs; they are modelled as `ℤ × ℤ` because the Python
code manipulates plain integer tuples (and some branches of the neighbour
computation can produce coordinates outside `[0, height) × [0, width)`).
Python sets of cells become `Finset Cell`, the Python list `self.knowledge`
becomes `List Sentence`, and counts become `ℤ` (Python integers may go
negative under subtraction and decrements).

All definitions are direct transcriptions of the source; the order in which
Python iterates over a `set` is unspecified, and wherever the code iterates
over a set (`for c in sentence.cells`, `mines.extend(...)`) the individual
updates commute, so folding over a canonical enumeration (`cellList`) is a
faithful rendering.
-/

abbrev Cell := ℤ × ℤ

/-- A fixed (lexicographic) enumeration order for cells.  Python iterates over
a `set` in an unspecified order; every place the source iterates over a set of
cells the individual updates commute, so a canonical order is a faithful
rendering of the loop. -/
def cellOrd (a b : Cell) : Prop :=
  a.1 < b.1 ∨ (a.1 = b.1 ∧ a.2 ≤ b.2)

instance : DecidableRel cellOrd := fun a b =>
  inferInstanceAs (Decidable (a.1 < b.1 ∨ (a.1 = b.1 ∧ a.2 ≤ b.2)))

/-- Insertion into a list sorted by `cellOrd`. -/
def insertCell (c : Cell) : List Cell → List Cell
  | [] => [c]
  | x :: xs => if cellOrd c x then c :: x :: xs else x :: insertCell c xs

theorem insertCell_comm (a b : Cell) (l : List Cell) :
    insertCell a (insertCell b l) = insertCell b (insertCell a l) := by
  induction l with
  | nil =>
    simp only [insertCell]
    by_cases hab : cellOrd a b <;> by_cases hba : cellOrd b a
    · have heq : a = b := by
        have h1 : a.1 = b.1 ∧ a.2 = b.2 := by unfold cellOrd at hab hba; omega
        exact Prod.ext_iff.mpr h1
      subst heq; rfl
    · simp [insertCell, hab, hba]
    · simp [insertCell, hab, hba]
    · exfalso; unfold cellOrd at hab hba; omega
  | cons x xs ih =>
    simp only [insertCell]
    by_cases hax : cellOrd a x <;> by_cases hbx : cellOrd b x
    · simp only [if_pos hax, if_pos hbx, insertCell]
      by_cases hab : cellOrd a b <;> by_cases hba : cellOrd b a
      · have heq : a = b := by
          have h1 : a.1 = b.1 ∧ a.2 = b.2 := by unfold cellOrd at hab hba; omega
          exact Prod.ext_iff.mpr h1
        subst heq; rfl
      · simp [insertCell, hab, hba, hax, hbx]
      · simp [insertCell, hab, hba, hax, hbx]
      · exfalso; unfold cellOrd at hab hba; omega
    · have hba : ¬cellOrd b a := by unfold cellOrd at hax hbx ⊢; omega
      simp [insertCell, hax, hbx, hba]
    · have hab : ¬cellOrd a b := by unfold cellOrd at hax hbx ⊢; omega
      simp [insertCell, hax, hbx, hab]
    · simp [insertCell, hax, hbx, ih]

instance : LeftCommutative insertCell := ⟨insertCell_comm⟩

/-- Computable enumeration of a finite set of cells, sorted by `cellOrd`
(the order in which a Python `for c in s:` loop visits a set `s` is
unspecified; see `cellOrd`). -/
def cellList (s : Finset Cell) : List Cell :=
  Multiset.foldr insertCell [] s.val

/-- Embedding of class `Sentence`: `self.cells = set(cells)`, `self.count = count`.
Python's `__eq__` compares `cells` and `count` by value, which is exactly
structural equality of this structure. -/
structure Sentence where
  cells : Finset Cell
  count : ℤ
deriving DecidableEq

namespace Sentence

/-- `known_mines`: `if len(self.cells) == self.count: return self.cells; return None`. -/
def known_mines (s : Sentence) : Option (Finset Cell) :=
  if (s.cells.card : ℤ) = s.count then some s.cells else none

/-- `known_safes`: `if len(self.cells) == 0: return self.cells; return None`.
Note the source tests the number of cells, not the count. -/
def known_safes (s : Sentence) : Option (Finset Cell) :=
  if s.cells.card = 0 then some s.cells else none

/-- `Sentence.mark_mine`: `if cell in self.cells: self.cells.remove(cell); self.count -= 1`. -/
def mark_mine (s : Sentence) (c : Cell) : Sentence :=
  if c ∈ s.cells then ⟨s.cells.erase c, s.count - 1⟩ else s

/-- `Sentence.mark_safe`: `if cell in self.cells: self.cells.remove(cell)`. -/
def mark_safe (s : Sentence) (c : Cell) : Sentence :=
  if c ∈ s.cells then ⟨s.cells.erase c, s.count⟩ else s

end Sentence

/-- Embedding of the `MinesweeperAI` state: `height`, `width`, `moves_made`,
`mines`, `safes`, `knowledge`. -/
structure MinesweeperAI where
  height : ℕ
  width : ℕ
  moves_made : Finset Cell
  mines : Finset Cell
  safes : Finset Cell
  knowledge : List Sentence
deriving DecidableEq

namespace MinesweeperAI

/-- `MinesweeperAI.__init__(height, width)`: empty sets, empty knowledge. -/
def init (height width : ℕ) : MinesweeperAI :=
  ⟨height, width, ∅, ∅, ∅, []⟩

/-- `MinesweeperAI.mark_mine`: add to `self.mines`, then
`for sentence in self.knowledge: sentence.mark_mine(cell)`. -/
def mark_mine (ai : MinesweeperAI) (c : Cell) : MinesweeperAI :=
  ⟨ai.height, ai.width, ai.moves_made, insert c ai.mines, ai.safes,
    ai.knowledge.map (fun s => s.mark_mine c)⟩

/-- `MinesweeperAI.mark_safe`: add to `self.safes`, then
`for sentence in self.knowledge: sentence.mark_safe(cell)`. -/
def mark_safe (ai : MinesweeperAI) (c : Cell) : MinesweeperAI :=
  ⟨ai.height, ai.width, ai.moves_made, ai.mines, insert c ai.safes,
    ai.knowledge.map (fun s => s.mark_safe c)⟩

end MinesweeperAI

/-- The neighbour list built by `add_knowledge` (lines 200-228): a chain of
`if`/`elif` branches on the position of `cell`, with the corner and
right/bottom edge cases written with literal coordinates 6 and 7.
The Python comparisons `cell[0] <= self.height - 2` etc. are integer
comparisons, rendered here over `ℤ`. -/
def neighbours (h w : ℕ) (cell : Cell) : List Cell :=
  if cell.1 = 0 ∧ cell.2 = 0 then
    [(0, 1), (1, 0), (1, 1)]
  else if cell.1 = 0 ∧ cell.2 = (w : ℤ) - 1 then
    [(0, 6), (1, 6), (1, 7)]
  else if cell.1 = (h : ℤ) - 1 ∧ cell.2 = 0 then
    [(6, 0), (6, 1), (7, 1)]
  else if cell.1 = (h : ℤ) - 1 ∧ cell.2 = (w : ℤ) - 1 then
    [(6, 6), (6, 7), (7, 6)]
  else if 1 ≤ cell.1 ∧ cell.1 ≤ (h : ℤ) - 2 ∧ cell.2 = 0 then
    [(cell.1 - 1, 0), (cell.1 - 1, 1), (cell.1, 1), (cell.1 + 1, 0), (cell.1 + 1, 1)]
  else if 1 ≤ cell.1 ∧ cell.1 ≤ (h : ℤ) - 2 ∧ cell.2 = (w : ℤ) - 1 then
    [(cell.1 - 1, 6), (cell.1 - 1, 7), (cell.1, 6), (cell.1 + 1, 6), (cell.1 + 1, 7)]
  else if cell.1 = 0 ∧ 1 ≤ cell.2 ∧ cell.2 ≤ (w : ℤ) - 2 then
    [(0, cell.2 - 1), (0, cell.2 + 1), (1, cell.2 - 1), (1, cell.2), (1, cell.2 + 1)]
  else if cell.1 = (h : ℤ) - 1 ∧ 1 ≤ cell.2 ∧ cell.2 ≤ (w : ℤ) - 2 then
    [(6, cell.2 - 1), (6, cell.2), (6, cell.2 + 1), (7, cell.2 - 1), (7, cell.2 + 1)]
  else
    [(cell.1 - 1, cell.2 - 1), (cell.1 - 1, cell.2), (cell.1 - 1, cell.2 + 1),
     (cell.1, cell.2 - 1), (cell.1, cell.2 + 1),
     (cell.1 + 1, cell.2 - 1), (cell.1 + 1, cell.2), (cell.1 + 1, cell.2 + 1)]

/-- Modelled from the spec: "Compute the neighbor set of `cell`: all cells
within one row and one column of `cell`, excluding `cell` itself, clipped to
the board's bounds." Used only to compare the source's `neighbours` against
the spec's bounds-general rule (claim C7). -/
def spec_neighbours (h w : ℕ) (cell : Cell) : Finset Cell :=
  (((List.range h).flatMap (fun (i : ℕ) => (List.range w).map
      (fun (j : ℕ) => (((i : ℤ), (j : ℤ)) : Cell)))).toFinset).filter
    (fun c => c ≠ cell ∧ cell.1 - 1 ≤ c.1 ∧ c.1 ≤ cell.1 + 1 ∧
              cell.2 - 1 ≤ c.2 ∧ c.2 ≤ cell.2 + 1)

namespace MinesweeperAI

/-- `MinesweeperAI.add_knowledge(cell, count)` (lines 177-265), step by step:
record the move; `self.mark_safe(cell)`; build the neighbour list; create
`sentence = Sentence(neighbours, count)`; run the loop
`for c in sentence.cells: if cell in self.mines: self.mark_mine(c)
elif cell in self.safes: self.mark_safe(c)` (the conditions test `cell`,
the observed cell, exactly as in the source); append `sentence`; build
`sets = [Sentence(s.cells - sentence.cells, s.count - sentence.count) for s
in self.knowledge]` and extend `knowledge` with it; collect every
`known_mines()`/`known_safes()` result and mark the collected cells. -/
def add_knowledge (ai : MinesweeperAI) (cell : Cell) (count : ℤ) : MinesweeperAI :=
  let ai1 : MinesweeperAI :=
    ⟨ai.height, ai.width, insert cell ai.moves_made, ai.mines, ai.safes, ai.knowledge⟩
  let ai2 := ai1.mark_safe cell
  let sentence : Sentence := ⟨(neighbours ai.height ai.width cell).toFinset, count⟩
  let ai3 := (cellList sentence.cells).foldl
    (fun st c =>
      if cell ∈ st.mines then st.mark_mine c
      else if cell ∈ st.safes then st.mark_safe c
      else st) ai2
  let ai4 : MinesweeperAI :=
    ⟨ai3.height, ai3.width, ai3.moves_made, ai3.mines, ai3.safes,
      ai3.knowledge ++ [sentence]⟩
  let sets := ai4.knowledge.map
    (fun s => (⟨s.cells \ sentence.cells, s.count - sentence.count⟩ : Sentence))
  let ai5 : MinesweeperAI :=
    ⟨ai4.height, ai4.width, ai4.moves_made, ai4.mines, ai4.safes,
      ai4.knowledge ++ sets⟩
  let minesList := ai5.knowledge.foldl
    (fun acc s => match s.known_mines with
      | some cs => acc ++ cellList cs
      | none => acc) []
  let safesList := ai5.knowledge.foldl
    (fun acc s => match s.known_safes with
      | some cs => acc ++ cellList cs
      | none => acc) []
  let ai6 := if minesList = [] then ai5 else minesList.foldl (fun st m => st.mark_mine m) ai5
  let ai7 := if safesList = [] then ai6 else safesList.foldl (fun st c => st.mark_safe c) ai6
  ai7

/-- The row-major enumeration of the board cells:
`for i in range(self.height): for j in range(self.width)` in
`make_safe_move`, and the comprehension
`{(i, j) for i in range(self.height) for j in range(self.width)}` in
`make_random_move`. -/
def rowMajorList (h w : ℕ) : List Cell :=
  (List.range h).flatMap
    (fun (i : ℕ) => (List.range w).map (fun (j : ℕ) => (((i : ℤ), (j : ℤ)) : Cell)))

/-- `MinesweeperAI.make_safe_move` (lines 268-285): scan the board in
row-major order and return the first cell that is not in `moves_made` and is
in `safes`; `None` if the loops finish. -/
def make_safe_move (ai : MinesweeperAI) : Option Cell :=
  (rowMajorList ai.height ai.width).find?
    (fun c => decide (c ∉ ai.moves_made ∧ c ∈ ai.safes))

/-- The candidate set of `make_random_move`:
`cells = {all board cells}; cells -= self.moves_made; cells -= self.mines`. -/
def random_candidates (ai : MinesweeperAI) : Finset Cell :=
  ((rowMajorList ai.height ai.width).toFinset \ ai.moves_made) \ ai.mines

/-- `MinesweeperAI.make_random_move` (lines 289-305): `random.choice` over the
list of candidates.  `random.choice` raises `IndexError` on an empty sequence
and otherwise returns an element of it; the randomness is modelled by an
arbitrary index `pick`, and the `IndexError` by `Except.error`. -/
def make_random_move (ai : MinesweeperAI) (pick : ℕ) : Except Unit Cell :=
  match cellList (random_candidates ai) with
  | [] => Except.error ()
  | x :: xs => Except.ok ((x :: xs).get ⟨pick % (xs.length + 1), Nat.mod_lt _ (Nat.succ_pos _)⟩)

end MinesweeperAI

/-!
Heap model for the aliasing behaviour of `Sentence.__init__` (claim C10).
Python set objects are mutable and passed by reference; `self.cells =
set(cells)` builds a NEW set object whose contents are copied from the
argument.  To state that no mutation crosses between the caller's collection
and the Sentence's set, the set objects live in a store addressed by
allocation index, and a Sentence holds the address of its cell set.
-/

/-- A store of set objects: `next` is the next fresh address, `mem` gives the
contents at each address. -/
structure Store where
  next : ℕ
  mem : ℕ → Finset Cell

/-- A `Sentence` as an object: the address of its `cells` set, plus `count`. -/
structure SentenceRef where
  cellsLoc : ℕ
  count : ℤ

/-- `Sentence.__init__(self, cells, count)`: `self.cells = set(cells)`
allocates a fresh set object whose contents are copied from the caller's
collection at address `callerLoc`; `self.count = count`. -/
def sentence_init (st : Store) (callerLoc : ℕ) (count : ℤ) : Store × SentenceRef :=
  (⟨st.next + 1, Function.update st.mem st.next (st.mem callerLoc)⟩, ⟨st.next, count⟩)

/-- `Sentence.mark_mine` acting on the store: the in-place
`self.cells.remove(cell)` and `self.count -= 1`, guarded by membership. -/
def ref_mark_mine (st : Store) (r : SentenceRef) (c : Cell) : Store × SentenceRef :=
  if c ∈ st.mem r.cellsLoc then
    (⟨st.next, Function.update st.mem r.cellsLoc ((st.mem r.cellsLoc).erase c)⟩,
     ⟨r.cellsLoc, r.count - 1⟩)
  else (st, r)

/-- `Sentence.mark_safe` acting on the store: the in-place
`self.cells.remove(cell)`, guarded by membership. -/
def ref_mark_safe (st : Store) (r : SentenceRef) (c : Cell) : Store × SentenceRef :=
  if c ∈ st.mem r.cellsLoc then
    (⟨st.next, Function.update st.mem r.cellsLoc ((st.mem r.cellsLoc).erase c)⟩,
     ⟨r.cellsLoc, r.count⟩)
  else (st, r)

/-- A call to `mark_mine` or `mark_safe` on a Sentence. -/
inductive MarkOp where
  | mine (c : Cell)
  | safe (c : Cell)

/-- Running a sequence of `mark_mine`/`mark_safe` calls on a Sentence. -/
def run_ops : Store → SentenceRef → List MarkOp → Store × SentenceRef
  | st, r, [] => (st, r)
  | st, r, MarkOp.mine c :: ops =>
      run_ops (ref_mark_mine st r c).1 (ref_mark_mine st r c).2 ops
  | st, r, MarkOp.safe c :: ops =>
      run_ops (ref_mark_safe st r c).1 (ref_mark_safe st r c).2 ops

/-- The caller mutating its own collection object in place (overwriting the
set stored at `loc` with new contents `v`). -/
def store_write (st : Store) (loc : ℕ) (v : Finset Cell) : Store :=
  ⟨st.next, Function.update st.mem loc v⟩

/-!
Concrete executions used by the claims about `add_knowledge`.  Each is a
sequence of public-interface calls starting from a freshly constructed AI;
the board described alongside each run in the verification results makes the
reported counts consistent.
-/

/-- A fresh default-size AI, `MinesweeperAI()` with `height = width = 8`. -/
def aiStart : MinesweeperAI := MinesweeperAI.init 8 8

/-- First observation: `add_knowledge((0, 0), 1)` on a fresh 8×8 AI
(consistent with a board whose only nearby mine is at `(1, 1)`). -/
def runA : MinesweeperAI := aiStart.add_knowledge (0, 0) 1

/-- Second observation: `add_knowledge((0, 2), 1)` after `runA`
(consistent with a single mine at `(1, 1)`). -/
def runB : MinesweeperAI := runA.add_knowledge (0, 2) 1

/-- Observation `add_knowledge((1, 1), 8)` on a fresh 8×8 AI (consistent with
a board whose eight cells around `(1, 1)` are all mines). -/
def runC : MinesweeperAI := aiStart.add_knowledge (1, 1) 8

/-- Observation `add_knowledge((2, 0), 0)` after `runC`. -/
def runD : MinesweeperAI := runC.add_knowledge (2, 0) 0

/-- Observation `add_knowledge((0, 0), 3)` on a fresh 8×8 AI (consistent with
a board whose mines are exactly `(0, 1)`, `(1, 0)`, `(1, 1)`). -/
def runE : MinesweeperAI := aiStart.add_knowledge (0, 0) 3

/-- Observation `add_knowledge((0, 0), 0)` on a fresh 1×1 AI (a mine-free
1×1 board); afterwards every board cell has been played. -/
def runF : MinesweeperAI := (MinesweeperAI.init 1 1).add_knowledge (0, 0) 0

/-- A small concrete 2×2 AI state used to exercise `make_safe_move`:
`moves_made = {(0, 0)}`, `safes = {(0, 0), (1, 1)}`. -/
def aiW : MinesweeperAI :=
  ⟨2, 2, {((0 : ℤ), (0 : ℤ))}, ∅, {((0 : ℤ), (0 : ℤ)), ((1 : ℤ), (1 : ℤ))}, []⟩

/-- A small concrete store: one allocated set object `{(0, 0)}` at address 0. -/
def storeW : Store := ⟨1, fun _ => {((0 : ℤ), (0 : ℤ))}⟩

/-!
Helper lemmas (used by the theorems below).
-/

theorem rowMajorList_succ (n w : ℕ) :
    MinesweeperAI.rowMajorList (n + 1) w
      = MinesweeperAI.rowMajorList n w
        ++ (List.range w).map (fun (j : ℕ) => (((n : ℤ), (j : ℤ)) : Cell)) := by
  unfold MinesweeperAI.rowMajorList
  rw [List.range_succ, List.flatMap_append]
  simp

theorem mem_rowMajorList {h w : ℕ} {c : Cell} :
    c ∈ MinesweeperAI.rowMajorList h w
      ↔ 0 ≤ c.1 ∧ c.1 < (h : ℤ) ∧ 0 ≤ c.2 ∧ c.2 < (w : ℤ) := by
  obtain ⟨a, b⟩ := c
  unfold MinesweeperAI.rowMajorList
  constructor
  · intro hc
    obtain ⟨i, hi, hc2⟩ := List.mem_flatMap.mp hc
    obtain ⟨j, hj, hc3⟩ := List.mem_map.mp hc2
    rw [List.mem_range] at hi hj
    injection hc3 with e1 e2
    refine ⟨?_, ?_, ?_, ?_⟩ <;> omega
  · rintro ⟨h1, h2, h3, h4⟩
    refine List.mem_flatMap.mpr ⟨a.toNat, List.mem_range.mpr (by omega), ?_⟩
    refine List.mem_map.mpr ⟨b.toNat, List.mem_range.mpr (by omega), ?_⟩
    rw [Prod.mk.injEq]
    constructor <;> omega

theorem rowMajorList_pairwise (h w : ℕ) :
    (MinesweeperAI.rowMajorList h w).Pairwise
      (fun a b => a.1 * (w : ℤ) + a.2 < b.1 * (w : ℤ) + b.2) := by
  induction h with
  | zero => simp [MinesweeperAI.rowMajorList]
  | succ n ih =>
    rw [rowMajorList_succ, List.pairwise_append]
    refine ⟨ih, ?_, ?_⟩
    · rw [List.pairwise_map]
      refine List.Pairwise.imp ?_ (List.pairwise_lt_range w)
      intro a b hab
      have hab' : (a : ℤ) < (b : ℤ) := by exact_mod_cast hab
      simpa using hab'
    · intro a ha b hb
      simp only [List.mem_map, List.mem_range] at hb
      obtain ⟨j, hj, rfl⟩ := hb
      have hmem := mem_rowMajorList.mp ha
      obtain ⟨ha1, ha2, ha3, ha4⟩ := hmem
      have hw0 : (0 : ℤ) ≤ (w : ℤ) := Int.natCast_nonneg w
      have hj0 : (0 : ℤ) ≤ (j : ℤ) := Int.natCast_nonneg j
      have e1 : a.1 * (w : ℤ) + a.2 < (a.1 + 1) * (w : ℤ) := by
        have e : (a.1 + 1) * (w : ℤ) = a.1 * (w : ℤ) + (w : ℤ) := by ring
        rw [e]
        linarith
      have e2 : (a.1 + 1) * (w : ℤ) ≤ (n : ℤ) * (w : ℤ) := by
        refine mul_le_mul_of_nonneg_right ?_ hw0
        omega
      show a.1 * (w : ℤ) + a.2 < ((n : ℤ), (j : ℤ)).1 * (w : ℤ) + ((n : ℤ), (j : ℤ)).2
      simp only
      linarith

theorem find?_first {α : Type} {R : α → α → Prop} {p : α → Bool} :
    ∀ {l : List α} {a : α}, l.Pairwise R → l.find? p = some a →
      ∀ b ∈ l, p b = true → a = b ∨ R a b := by
  intro l
  induction l with
  | nil => intro a _ hfind; simp at hfind
  | cons x xs ih =>
    intro a hpw hfind b hb hpb
    rw [List.pairwise_cons] at hpw
    by_cases hx : p x = true
    · rw [List.find?_cons_of_pos _ hx] at hfind
      have hax : x = a := by simpa using hfind
      rcases List.mem_cons.mp hb with hbx | hbxs
      · exact Or.inl (by rw [← hax, hbx])
      · exact Or.inr (by rw [← hax]; exact hpw.1 b hbxs)
    · rw [List.find?_cons_of_neg _ hx] at hfind
      rcases List.mem_cons.mp hb with hbx | hbxs
      · exact absurd (hbx ▸ hpb) hx
      · exact ih hpw.2 hfind b hbxs hpb

theorem run_ops_frame (ops : List MarkOp) :
    ∀ (st : Store) (r : SentenceRef) (loc : ℕ), loc ≠ r.cellsLoc →
      (run_ops st r ops).1.mem loc = st.mem loc
        ∧ (run_ops st r ops).2.cellsLoc = r.cellsLoc := by
  induction ops with
  | nil => intro st r loc _; exact ⟨rfl, rfl⟩
  | cons op ops ih =>
    intro st r loc hloc
    cases op with
    | mine c =>
      have step : (ref_mark_mine st r c).1.mem loc = st.mem loc
          ∧ (ref_mark_mine st r c).2.cellsLoc = r.cellsLoc := by
        unfold ref_mark_mine
        by_cases hm : c ∈ st.mem r.cellsLoc
        · simp [hm, Function.update_noteq hloc]
        · simp [hm]
      have hloc' : loc ≠ (ref_mark_mine st r c).2.cellsLoc := by
        rw [step.2]; exact hloc
      have hrec := ih (ref_mark_mine st r c).1 (ref_mark_mine st r c).2 loc hloc'
      exact ⟨by rw [run_ops, hrec.1, step.1], by rw [run_ops, hrec.2, step.2]⟩
    | safe c =>
      have step : (ref_mark_safe st r c).1.mem loc = st.mem loc
          ∧ (ref_mark_safe st r c).2.cellsLoc = r.cellsLoc := by
        unfold ref_mark_safe
        by_cases hm : c ∈ st.mem r.cellsLoc
        · simp [hm, Function.update_noteq hloc]
        · simp [hm]
      have hloc' : loc ≠ (ref_mark_safe st r c).2.cellsLoc := by
        rw [step.2]; exact hloc
      have hrec := ih (ref_mark_safe st r c).1 (ref_mark_safe st r c).2 loc hloc'
      exact ⟨by rw [run_ops, hrec.1, step.1], by rw [run_ops, hrec.2, step.2]⟩

/-!
Claim theorems.
-/

/-- C1: The claim states that in `add_knowledge` a derived Statement
`C = (B.cells - A.cells, B.count - A.count)` is produced only for pairs of
distinct Statements with `A.cells` a non-empty subset of `B.cells`, and is
added only if non-empty and not already present.  The code has no such
checks: it subtracts the newly created sentence from every sentence in
`knowledge` (including from itself) and appends every result.  Already after
the very first observation `add_knowledge((0, 0), 1)` on a fresh 8×8 AI
(consistent with a board whose only mine near `(0, 0)` is `(1, 1)`), the
knowledge base is exactly the observation sentence `{(0,1),(1,0),(1,1)} = 1`
followed by the empty derived sentence `∅ = 0`, obtained from the
non-distinct pair (sentence, sentence) and added despite its empty cell
set. -/
theorem add_knowledge_adds_unchecked_difference :
    runA.knowledge
      = [⟨{((0 : ℤ), (1 : ℤ)), ((1 : ℤ), (0 : ℤ)), ((1 : ℤ), (1 : ℤ))}, 1⟩, ⟨∅, 0⟩] := by
  decide

/-- C2: The claim states that the new Statement built from the observed
cell's neighbours contains only cells of still-unknown status, with the count
reduced by the number of excluded known mines.  The code instead tests the
observed `cell` (not the neighbour `c`) in its filtering loop, so the
appended sentence keeps every neighbour.  After `add_knowledge((0, 0), 1)`
and then `add_knowledge((0, 2), 1)` on a fresh 8×8 AI (consistent with a
single mine at `(1, 1)`), the sentence appended by the second call is the
full neighbour set `{(0,1),(0,3),(1,1),(1,2),(1,3)} = 1` even though
`(0, 1)` and `(1, 1)` were already in `safes` before that call. -/
theorem new_sentence_keeps_known_cells :
    (⟨{((0 : ℤ), (1 : ℤ)), ((0 : ℤ), (3 : ℤ)), ((1 : ℤ), (1 : ℤ)),
        ((1 : ℤ), (2 : ℤ)), ((1 : ℤ), (3 : ℤ))}, 1⟩ : Sentence) ∈ runB.knowledge ∧
    ((0, 1) : Cell) ∈ runA.safes ∧ ((1, 1) : Cell) ∈ runA.safes := by
  decide

/-- C3: The claim states that when `add_knowledge` returns, no further
application of certainty extraction or subset elimination to the resulting
knowledge base would produce a new certain cell or a new Statement.  The
code performs a single pass, and after the two calls
`add_knowledge((1, 1), 8)` and `add_knowledge((2, 0), 0)` on a fresh 8×8 AI
the final knowledge base still contains the sentence
`{(1,0),(1,1),(2,1),(3,0),(3,1)} = 0`, whose count is `0` while `(3, 0)` and
`(3, 1)` are not in `safes`: one more certainty-extraction pass would newly
mark them safe, so the state is not a fixed point. -/
theorem add_knowledge_not_saturated :
    (⟨{((1 : ℤ), (0 : ℤ)), ((1 : ℤ), (1 : ℤ)), ((2 : ℤ), (1 : ℤ)),
        ((3 : ℤ), (0 : ℤ)), ((3 : ℤ), (1 : ℤ))}, 0⟩ : Sentence) ∈ runD.knowledge ∧
    ((3, 0) : Cell) ∉ runD.safes ∧ ((3, 1) : Cell) ∉ runD.safes := by
  decide

/-- C4: The claim states that `known_safes()` returns the cell set iff
`count == 0`, and in particular that a Statement `{x, y} = 0` yields its cell
set.  The source tests `len(self.cells) == 0` instead of `self.count == 0`,
so on the two-cell zero-count sentence it returns `None`. -/
theorem known_safes_ignores_count :
    Sentence.known_safes ⟨{((0 : ℤ), (0 : ℤ)), ((0 : ℤ), (1 : ℤ))}, 0⟩ = none := by
  decide

/-- C5: The claim states the invariant `0 <= count <= |cells|` for every
Statement in every reachable knowledge base.  After the two observation
calls `add_knowledge((0, 0), 1)` and `add_knowledge((0, 2), 1)` on a fresh
8×8 AI (consistent with a valid board whose single mine is at `(1, 1)`), the
knowledge base contains the sentence `∅ = -1`, whose count is negative. -/
theorem knowledge_negative_count :
    (⟨∅, -1⟩ : Sentence) ∈ runB.knowledge := by
  decide

/-- C6: The claim states the invariant `safes ∩ mines = ∅` for every
reachable state under valid board input.  After the single observation
`add_knowledge((0, 0), 3)` on a fresh 8×8 AI (valid board: mines exactly at
`(0,1)`, `(1,0)`, `(1,1)`, observed cell `(0, 0)` safe with 3 nearby mines),
the cell `(0, 1)` is in both `safes` and `mines`. -/
theorem safes_mines_overlap :
    ((0, 1) : Cell) ∈ runE.safes ∧ ((0, 1) : Cell) ∈ runE.mines ∧
    runE.safes ∩ runE.mines ≠ ∅ := by
  decide

/-- C7: The claim states that the neighbour set equals the cells within one
row and one column of the observed cell, clipped to the board's bounds, for
any board dimensions.  The source hard-codes columns/rows 6 and 7 for the
right and bottom borders of an 8×8 board: on a 4×4 board the corner
`(0, 3)` yields the out-of-bounds list `[(0,6),(1,6),(1,7)]` instead of the
clipped neighbour set `{(0,2),(1,2),(1,3)}`. -/
theorem neighbours_hardcoded_not_general :
    neighbours 4 4 (0, 3) = [(0, 6), (1, 6), (1, 7)] ∧
    spec_neighbours 4 4 (0, 3)
      = {((0 : ℤ), (2 : ℤ)), ((1 : ℤ), (2 : ℤ)), ((1 : ℤ), (3 : ℤ))} ∧
    (neighbours 4 4 (0, 3)).toFinset ≠ spec_neighbours 4 4 (0, 3) := by
  decide

/-- C8: The claim states that `make_random_move` returns the explicit
"no move" result when the candidate set `{all cells} - moves_made - mines`
is empty, rather than failing.  On a 1×1 board after the single observation
`add_knowledge((0, 0), 0)` the candidate set is empty and `random.choice`
raises `IndexError` (modelled by `Except.error`) for every possible random
pick, instead of returning a "no move" value. -/
theorem make_random_move_errors_on_empty :
    MinesweeperAI.random_candidates runF = ∅ ∧
    ∀ pick : ℕ, MinesweeperAI.make_random_move runF pick = Except.error () := by
  refine ⟨by decide, fun pick => ?_⟩
  rfl

/-- C9: `make_safe_move` deterministically returns the lowest-indexed cell in
row-major order that is in `safes` but not in `moves_made` (in particular it
never returns a cell in `moves_made` and always returns an in-bounds cell),
and returns `none` exactly when no in-bounds such cell exists.  It reads but
never writes the AI state: in this embedding it is a pure function of the
state. -/
theorem make_safe_move_correct (ai : MinesweeperAI) :
    (∀ c : Cell, ai.make_safe_move = some c →
        c ∈ ai.safes ∧ c ∉ ai.moves_made ∧
        0 ≤ c.1 ∧ c.1 < (ai.height : ℤ) ∧ 0 ≤ c.2 ∧ c.2 < (ai.width : ℤ) ∧
        ∀ c' : Cell, 0 ≤ c'.1 → c'.1 < (ai.height : ℤ) → 0 ≤ c'.2 → c'.2 < (ai.width : ℤ) →
          c' ∈ ai.safes → c' ∉ ai.moves_made →
          c.1 * (ai.width : ℤ) + c.2 ≤ c'.1 * (ai.width : ℤ) + c'.2) ∧
    (ai.make_safe_move = none ↔
      ∀ c : Cell, 0 ≤ c.1 → c.1 < (ai.height : ℤ) → 0 ≤ c.2 → c.2 < (ai.width : ℤ) →
        c ∈ ai.safes → c ∈ ai.moves_made) := by
  constructor
  · intro c hc
    unfold MinesweeperAI.make_safe_move at hc
    have hp0 := List.find?_some hc
    have hp' : c ∉ ai.moves_made ∧ c ∈ ai.safes := of_decide_eq_true hp0
    have hmem := List.mem_of_find?_eq_some hc
    have hb := mem_rowMajorList.mp hmem
    refine ⟨hp'.2, hp'.1, hb.1, hb.2.1, hb.2.2.1, hb.2.2.2, ?_⟩
    intro c' h1 h2 h3 h4 hs hm
    have hmem' : c' ∈ MinesweeperAI.rowMajorList ai.height ai.width :=
      mem_rowMajorList.mpr ⟨h1, h2, h3, h4⟩
    rcases find?_first (rowMajorList_pairwise ai.height ai.width) hc c' hmem'
        (decide_eq_true ⟨hm, hs⟩) with heq | hlt
    · rw [heq]
    · exact le_of_lt hlt
  · unfold MinesweeperAI.make_safe_move
    rw [List.find?_eq_none]
    constructor
    · intro hnone c h1 h2 h3 h4 hs
      by_contra hm
      exact hnone c (mem_rowMajorList.mpr ⟨h1, h2, h3, h4⟩) (decide_eq_true ⟨hm, hs⟩)
    · intro hall x hx hpx
      have hx' : x ∉ ai.moves_made ∧ x ∈ ai.safes := of_decide_eq_true hpx
      have hb := mem_rowMajorList.mp hx
      exact hx'.1 (hall x hb.1 hb.2.1 hb.2.2.1 hb.2.2.2 hx'.2)

/-- Witness for C9: on a concrete 2×2 state with `moves_made = {(0,0)}` and
`safes = {(0,0), (1,1)}`, `make_safe_move` returns `(1, 1)`, which the main
theorem then certifies to be in `safes` and not in `moves_made`. -/
theorem make_safe_move_correct_witness :
    MinesweeperAI.make_safe_move aiW = some (1, 1) ∧
    ((1, 1) : Cell) ∈ aiW.safes ∧ ((1, 1) : Cell) ∉ aiW.moves_made := by
  refine ⟨by decide, ?_, ?_⟩
  · exact ((make_safe_move_correct aiW).1 (1, 1) (by decide)).1
  · exact ((make_safe_move_correct aiW).1 (1, 1) (by decide)).2.1

/-- C10: `Sentence.__init__` takes ownership by copying (`set(cells)`): for a
store in which the caller's collection lives at a valid address, after
constructing a Sentence from it, (i) any sequence of `mark_mine`/`mark_safe`
calls on the Sentence leaves the caller's collection exactly as it was, and
(ii) overwriting the caller's collection does not change the Sentence's cell
set. -/
theorem sentence_init_copies (st : Store) (callerLoc : ℕ) (count : ℤ)
    (hcaller : callerLoc < st.next) (ops : List MarkOp) (v : Finset Cell) :
    (run_ops (sentence_init st callerLoc count).1
        (sentence_init st callerLoc count).2 ops).1.mem callerLoc
      = st.mem callerLoc ∧
    (store_write (sentence_init st callerLoc count).1 callerLoc v).mem
        (sentence_init st callerLoc count).2.cellsLoc
      = (sentence_init st callerLoc count).1.mem
          (sentence_init st callerLoc count).2.cellsLoc := by
  have hne : callerLoc ≠ st.next := Nat.ne_of_lt hcaller
  constructor
  · have hframe := (run_ops_frame ops (sentence_init st callerLoc count).1
      (sentence_init st callerLoc count).2 callerLoc hne).1
    rw [hframe]
    show Function.update st.mem st.next (st.mem callerLoc) callerLoc = st.mem callerLoc
    exact Function.update_noteq hne _ _
  · show Function.update (sentence_init st callerLoc count).1.mem callerLoc v st.next
        = (sentence_init st callerLoc count).1.mem st.next
    exact Function.update_noteq (Ne.symm hne) _ _

/-- Witness for C10: a concrete one-object store holding `{(0, 0)}` at
address 0; constructing a Sentence from it and then calling `mark_mine` on
the Sentence leaves the caller's set unchanged. -/
theorem sentence_init_copies_witness :
    0 < storeW.next ∧
    (run_ops (sentence_init storeW 0 1).1 (sentence_init storeW 0 1).2
        [MarkOp.mine ((0 : ℤ), (0 : ℤ))]).1.mem 0
      = storeW.mem 0 :=
  ⟨by decide,
    (sentence_init_copies storeW 0 1 (by decide) [MarkOp.mine ((0 : ℤ), (0 : ℤ))] ∅).1⟩
